import Mathlib

set_option maxRecDepth 8192

/-!
Shallow embedding of the input-decoding core of the `termui` crate
(src/event/key.rs, src/event/mouse.rs, src/event/mod.rs, src/window.rs).

Modelling conventions:
* Machine integers are modelled as `Nat`/`Int` with explicit reductions
  modulo `2^w` where the source relies on fixed-width behaviour
  (`mmask_t` is a 32-bit mask type, key codes are `i32`, `usize` is 64-bit).
* The curses backend is an external collaborator: the raw input unit
  returned by `getch` is the `Input` inductive below; the `getmouse`
  result is bundled with the `KeyMouse` constructor (in the source every
  `Input::KeyMouse` is immediately followed by exactly one `getmouse`
  call); the keymap builder takes the backend `keyname` capability as a
  function argument.
* Rust `HashMap` with distinct keys is modelled as an association list,
  insertion as cons (newest entry shadows), lookup as first match.
* Rust code that can panic (byte-slicing of key names in `init_keymap`)
  is modelled with `Option`, `none` standing for a panic.
-/

namespace termui

/-- `Key` from src/event/key.rs: a key on a keyboard. -/
inductive Key where
  | Char (c : Char)
  | Enter
  | Backspace
  | Tab
  | Escape
  | Up
  | Down
  | Left
  | Right
  | Break
  | Insert
  | Delete
  | Home
  | End
  | PageUp
  | PageDown
  | F0 | F1 | F2 | F3 | F4 | F5 | F6 | F7 | F8 | F9 | F10 | F11 | F12 | F13 | F14 | F15
deriving DecidableEq, Repr

/-- `Modifier` from src/event/key.rs: a `bitflags` set over a `u8`. -/
structure Modifier where
  val : Nat
deriving DecidableEq, Repr

/-- `Modifier::None` (0b000). -/
def Modifier.None : Modifier := ⟨0⟩

/-- `Modifier::Ctrl` (0b001). -/
def Modifier.Ctrl : Modifier := ⟨1⟩

/-- `Modifier::Shift` (0b010). -/
def Modifier.Shift : Modifier := ⟨2⟩

/-- `Modifier::Alt` (0b100). -/
def Modifier.Alt : Modifier := ⟨4⟩

/-- The `|` operator of `bitflags`: bitwise or of the underlying bits. -/
def Modifier.or (a b : Modifier) : Modifier := ⟨a.val ||| b.val⟩

/-- `MouseButton` from src/event/mouse.rs. -/
inductive MouseButton where
  | Left
  | Middle
  | Right
  | Button4
  | Button5
  | Other
deriving DecidableEq, Repr

/-- `MouseEvent` from src/event/mouse.rs. -/
inductive MouseEvent where
  | Press (btn : MouseButton)
  | Release (btn : MouseButton)
  | Hold (btn : MouseButton)
  | WheelUp
  | WheelDown
deriving DecidableEq, Repr

/-- `MouseEvent::button`: the button associated with the event, if any. -/
def MouseEvent.button : MouseEvent → Option MouseButton
  | MouseEvent.Press btn => some btn
  | MouseEvent.Release btn => some btn
  | MouseEvent.Hold btn => some btn
  | MouseEvent.WheelUp => none
  | MouseEvent.WheelDown => none

/-- `Event` from src/event/mod.rs. The `Unknown` payload (`Vec<u8>`) is a
list of byte values. -/
inductive Event where
  | Refresh
  | Resize
  | Key (key : termui.Key) (modifier : Modifier)
  | Mouse (pos : Nat × Nat) (event : MouseEvent)
  | Unknown (bytes : List Nat)
deriving DecidableEq, Repr

/-- `Event::key`: a key event with no modifier. -/
def Event.key (key : termui.Key) : Event := Event.Key key Modifier.None

/-! ### Curses mouse-mask constants

pancurses (ncurses backend, mouse interface version 2):
`NCURSES_MOUSE_MASK(b, m) = m << ((b - 1) * 5)`. -/

def BUTTON1_RELEASED : Nat := 1
def BUTTON1_PRESSED : Nat := 2
def BUTTON1_CLICKED : Nat := 4
def BUTTON1_DOUBLE_CLICKED : Nat := 8
def BUTTON1_TRIPLE_CLICKED : Nat := 16
def BUTTON2_RELEASED : Nat := 32
def BUTTON2_PRESSED : Nat := 64
def BUTTON2_CLICKED : Nat := 128
def BUTTON2_DOUBLE_CLICKED : Nat := 256
def BUTTON2_TRIPLE_CLICKED : Nat := 512
def BUTTON3_RELEASED : Nat := 1024
def BUTTON3_PRESSED : Nat := 2048
def BUTTON3_CLICKED : Nat := 4096
def BUTTON3_DOUBLE_CLICKED : Nat := 8192
def BUTTON3_TRIPLE_CLICKED : Nat := 16384
def BUTTON4_RELEASED : Nat := 32768
def BUTTON4_PRESSED : Nat := 65536
def BUTTON4_CLICKED : Nat := 131072
def BUTTON4_DOUBLE_CLICKED : Nat := 262144
def BUTTON4_TRIPLE_CLICKED : Nat := 524288
def BUTTON5_RELEASED : Nat := 1048576
def BUTTON5_PRESSED : Nat := 2097152
def BUTTON5_CLICKED : Nat := 4194304
def BUTTON5_DOUBLE_CLICKED : Nat := 8388608
def BUTTON5_TRIPLE_CLICKED : Nat := 16777216
def BUTTON_CTRL : Nat := 33554432
def BUTTON_SHIFT : Nat := 67108864
def BUTTON_ALT : Nat := 134217728
def REPORT_MOUSE_POSITION : Nat := 268435456

/-- `MEVENT` of curses as read by the source: only `x`, `y` (i32
coordinates) and `bstate` (the 32-bit `mmask_t` button state) are used. -/
structure MEvent where
  x : Int
  y : Int
  bstate : Nat
deriving DecidableEq, Repr

/-- The Rust `as usize` cast of an `i32`, on a 64-bit platform:
reduction modulo `2^64` of the sign-extended value. -/
def usize_of (i : Int) : Nat := (i % 18446744073709551616).toNat

/-- `split_i32` from src/window.rs:
`(0..4).map(|i| ((code >> (8 * i)) & 0xFF) as u8).collect()`.
An arithmetic right shift of an `i32` followed by `& 0xFF` extracts byte
`i` of the two's-complement representation, i.e. byte `i` of
`code mod 2^32`. -/
def split_i32 (code : Int) : List Nat :=
  (List.range 4).map (fun i => ((code % 4294967296).toNat >>> (8 * i)) &&& 255)

/-- `get_mouse_button` from src/window.rs. -/
def get_mouse_button (bare_event : Nat) : MouseButton :=
  if bare_event = BUTTON1_RELEASED ∨ bare_event = BUTTON1_PRESSED ∨
     bare_event = BUTTON1_CLICKED ∨ bare_event = BUTTON1_DOUBLE_CLICKED ∨
     bare_event = BUTTON1_TRIPLE_CLICKED then MouseButton.Left
  else if bare_event = BUTTON2_RELEASED ∨ bare_event = BUTTON2_PRESSED ∨
     bare_event = BUTTON2_CLICKED ∨ bare_event = BUTTON2_DOUBLE_CLICKED ∨
     bare_event = BUTTON2_TRIPLE_CLICKED then MouseButton.Middle
  else if bare_event = BUTTON3_RELEASED ∨ bare_event = BUTTON3_PRESSED ∨
     bare_event = BUTTON3_CLICKED ∨ bare_event = BUTTON3_DOUBLE_CLICKED ∨
     bare_event = BUTTON3_TRIPLE_CLICKED then MouseButton.Right
  else if bare_event = BUTTON4_RELEASED ∨ bare_event = BUTTON4_PRESSED ∨
     bare_event = BUTTON4_CLICKED ∨ bare_event = BUTTON4_DOUBLE_CLICKED ∨
     bare_event = BUTTON4_TRIPLE_CLICKED then MouseButton.Button4
  else if bare_event = BUTTON5_RELEASED ∨ bare_event = BUTTON5_PRESSED ∨
     bare_event = BUTTON5_CLICKED ∨ bare_event = BUTTON5_DOUBLE_CLICKED ∨
     bare_event = BUTTON5_TRIPLE_CLICKED then MouseButton.Button5
  else MouseButton.Other

/-- `on_mouse_event` from src/window.rs, with the callback `f` collected
into the ordered list of its invocations.  The match arms are translated
in source order (the `BUTTON4_PRESSED`/`BUTTON5_PRESSED` wheel arms come
first, so pressed buttons 4 and 5 are wheel events and the plain press
arm only covers buttons 1 to 3). -/
def on_mouse_event (bare_event : Nat) : List MouseEvent :=
  if bare_event = BUTTON4_PRESSED then [MouseEvent.WheelUp]
  else if bare_event = BUTTON5_PRESSED then [MouseEvent.WheelDown]
  else if bare_event = BUTTON1_RELEASED ∨ bare_event = BUTTON2_RELEASED ∨
     bare_event = BUTTON3_RELEASED ∨ bare_event = BUTTON4_RELEASED ∨
     bare_event = BUTTON5_RELEASED then
    [MouseEvent.Release (get_mouse_button bare_event)]
  else if bare_event = BUTTON1_PRESSED ∨ bare_event = BUTTON2_PRESSED ∨
     bare_event = BUTTON3_PRESSED then
    [MouseEvent.Press (get_mouse_button bare_event)]
  else if bare_event = BUTTON1_CLICKED ∨ bare_event = BUTTON2_CLICKED ∨
     bare_event = BUTTON3_CLICKED ∨ bare_event = BUTTON4_CLICKED ∨
     bare_event = BUTTON5_CLICKED then
    [MouseEvent.Press (get_mouse_button bare_event),
     MouseEvent.Release (get_mouse_button bare_event)]
  else if bare_event = BUTTON1_DOUBLE_CLICKED ∨ bare_event = BUTTON2_DOUBLE_CLICKED ∨
     bare_event = BUTTON3_DOUBLE_CLICKED ∨ bare_event = BUTTON4_DOUBLE_CLICKED ∨
     bare_event = BUTTON5_DOUBLE_CLICKED then
    [MouseEvent.Press (get_mouse_button bare_event),
     MouseEvent.Release (get_mouse_button bare_event),
     MouseEvent.Press (get_mouse_button bare_event),
     MouseEvent.Release (get_mouse_button bare_event)]
  else if bare_event = BUTTON1_TRIPLE_CLICKED ∨ bare_event = BUTTON2_TRIPLE_CLICKED ∨
     bare_event = BUTTON3_TRIPLE_CLICKED ∨ bare_event = BUTTON4_TRIPLE_CLICKED ∨
     bare_event = BUTTON5_TRIPLE_CLICKED then
    [MouseEvent.Press (get_mouse_button bare_event),
     MouseEvent.Release (get_mouse_button bare_event),
     MouseEvent.Press (get_mouse_button bare_event),
     MouseEvent.Release (get_mouse_button bare_event),
     MouseEvent.Press (get_mouse_button bare_event),
     MouseEvent.Release (get_mouse_button bare_event)]
  else []

/-- The while loop of `Window::parse_mouse_event`: repeatedly isolate the
lowest set bit of `bare_event` (`1 << bare_event.trailing_zeros()`),
clear it, and run `on_mouse_event` on it.  Since `bare_event` is first
masked with `(1 << 25) - 1`, the loop visits exactly the set bits among
positions 0..24 in increasing order, which is what this fold does. -/
def collect_bare_events (bare_event : Nat) : List MouseEvent :=
  (List.range 25).foldl
    (fun acc i => if bare_event.testBit i then acc ++ on_mouse_event (1 <<< i) else acc) []

/-- The raw input unit returned by the backend `getch` call
(`pancurses::Input`), restricted to the constructors that
`Window::poll_event` matches on; `OtherInput` stands for every remaining
variant, which the source's `_ => Event::Refresh` catch-all covers.  The
`KeyMouse` constructor bundles the result of the `curses::getmouse()`
call which the source performs on receiving it (`Err` carries the i32
error code). -/
inductive Input where
  | Character (c : Char)
  | KeyEnter
  | KeyBackspace
  | KeyBTab
  | KeySTab
  | KeyCTab
  | KeyCATab
  | Unknown (code : Int)
  | KeyUp
  | KeyDown
  | KeyLeft
  | KeyRight
  | KeySR
  | KeySF
  | KeySLeft
  | KeySRight
  | KeyBreak
  | KeyIC
  | KeyDC
  | KeyHome
  | KeyEnd
  | KeyPPage
  | KeyNPage
  | KeySIC
  | KeySDC
  | KeySHome
  | KeySEnd
  | KeySPrevious
  | KeySNext
  | KeyF0 | KeyF1 | KeyF2 | KeyF3 | KeyF4 | KeyF5 | KeyF6
  | KeyF7 | KeyF8 | KeyF9 | KeyF10 | KeyF11 | KeyF12
  | KeyResize
  | KeyMouse (gm : Except Int MEvent)
  | OtherInput

/-- First-match lookup in an association list; models `HashMap::get`
under the cons-as-insert convention (newest entry shadows older ones,
which agrees with `HashMap::insert` overwriting). -/
def lookupKV : List (Int × Event) → Int → Option Event
  | [], _ => none
  | (k, v) :: rest, c => if c = k then some v else lookupKV rest c

/-- The mutable state of `Window` from src/window.rs (the inner curses
window handle is the external backend and carries no decoder state). -/
structure Window where
  event_queue : List Event
  last_mouse_button : Option MouseButton
  key_codes : List (Int × Event)
deriving DecidableEq, Repr

/-- `(mevent.x as usize, mevent.y as usize)`, the position every event
of one mouse decomposition is tagged with. -/
def mouse_pos (me : MEvent) : Nat × Nat := (usize_of me.x, usize_of me.y)

/-- The `make_event` closure of `Window::parse_mouse_event`. -/
def make_event (me : MEvent) (event : MouseEvent) : Event :=
  Event.Mouse (mouse_pos me) event

/-- `mevent.bstate &= !(BUTTON_CTRL | BUTTON_SHIFT | BUTTON_ALT)` — the
complement is taken in the 32-bit `mmask_t` type. -/
def strip_modifiers (bstate : Nat) : Nat :=
  bstate &&& (4294967295 ^^^ (BUTTON_CTRL ||| BUTTON_SHIFT ||| BUTTON_ALT))

/-- `Window::parse_mouse_event` from src/window.rs.  Returns the event
the source returns together with the updated window state:

* `getmouse` failure maps to `Event::Unknown(split_i32(code))`;
* after stripping the modifier bits, a state equal to
  `REPORT_MOUSE_POSITION` becomes a `Hold` of the remembered
  `last_mouse_button` (or `Unknown(vec![])` when none is remembered);
* otherwise the while loop decomposes the low 25 bits
  (`collect_bare_events`); the first produced event is returned, all
  later ones are pushed onto `event_queue` in order, and
  `last_mouse_button` is assigned from the first event's `button()`
  when it has one. -/
def parse_mouse_event (w : Window) (gm : Except Int MEvent) : Event × Window :=
  match gm with
  | Except.error code => (Event.Unknown (split_i32 code), w)
  | Except.ok me =>
    if strip_modifiers me.bstate = REPORT_MOUSE_POSITION then
      match w.last_mouse_button with
      | some btn => (make_event me (MouseEvent.Hold btn), w)
      | none => (Event.Unknown [], w)
    else
      match collect_bare_events (strip_modifiers me.bstate &&& 33554431) with
      | [] => (Event.Unknown [], w)
      | e :: rest =>
        (make_event me e,
         { w with
             event_queue := w.event_queue ++ rest.map (make_event me),
             last_mouse_button :=
               match e.button with
               | some btn => some btn
               | none => w.last_mouse_button })

/-- The classification `match input` inside `Window::poll_event`,
translated arm by arm in source order.  Arms on the `Character`
constructor become an if-chain in the source's arm order; all arms
except `KeyMouse` leave the window state unchanged (`KeyResize`
additionally calls `curses::resize_term(0, 0)`, a backend side effect
outside the decoder state). -/
def decode_input (w : Window) (input : Input) : Event × Window :=
  match input with
  | Input.Character c =>
    (if c = '\n' then Event.key Key.Enter
     else if c = '\x7F' ∨ c = '\x08' then Event.key Key.Backspace
     else if c = '\x09' then Event.key Key.Tab
     else if c = '\x1B' then Event.key Key.Escape
     else if c.toNat ≤ 26 then
       -- `Key::Char((b'a' - 1 + c as u8) as char)` with `b'a' - 1 = 96`
       Event.Key (Key.Char (Char.ofNat (96 + c.toNat))) Modifier.Ctrl
     else Event.key (Key.Char c), w)
  | Input.KeyEnter => (Event.key Key.Enter, w)
  | Input.KeyBackspace => (Event.key Key.Backspace, w)
  | Input.KeyBTab => (Event.Key Key.Tab Modifier.Shift, w)
  | Input.KeySTab => (Event.Key Key.Tab Modifier.Shift, w)
  | Input.KeyCTab => (Event.Key Key.Tab Modifier.Ctrl, w)
  | Input.KeyCATab => (Event.Key Key.Tab (Modifier.or Modifier.Ctrl Modifier.Alt), w)
  | Input.Unknown code =>
    (match lookupKV w.key_codes (code + 256 + 48) with
     | some ev => ev
     | none => Event.Unknown (split_i32 code), w)
  | Input.KeyUp => (Event.key Key.Up, w)
  | Input.KeyDown => (Event.key Key.Down, w)
  | Input.KeyLeft => (Event.key Key.Left, w)
  | Input.KeyRight => (Event.key Key.Right, w)
  | Input.KeySR => (Event.Key Key.Up Modifier.Shift, w)
  | Input.KeySF => (Event.Key Key.Down Modifier.Shift, w)
  | Input.KeySLeft => (Event.Key Key.Left Modifier.Shift, w)
  | Input.KeySRight => (Event.Key Key.Right Modifier.Shift, w)
  | Input.KeyBreak => (Event.key Key.Break, w)
  | Input.KeyIC => (Event.key Key.Insert, w)
  | Input.KeyDC => (Event.key Key.Delete, w)
  | Input.KeyHome => (Event.key Key.Home, w)
  | Input.KeyEnd => (Event.key Key.End, w)
  | Input.KeyPPage => (Event.key Key.PageUp, w)
  | Input.KeyNPage => (Event.key Key.PageDown, w)
  | Input.KeySIC => (Event.Key Key.Insert Modifier.Shift, w)
  | Input.KeySDC => (Event.Key Key.Delete Modifier.Shift, w)
  | Input.KeySHome => (Event.Key Key.Home Modifier.Shift, w)
  | Input.KeySEnd => (Event.Key Key.End Modifier.Shift, w)
  | Input.KeySPrevious => (Event.Key Key.PageUp Modifier.Shift, w)
  | Input.KeySNext => (Event.Key Key.PageDown Modifier.Shift, w)
  | Input.KeyF0 => (Event.key Key.F0, w)
  | Input.KeyF1 => (Event.key Key.F1, w)
  | Input.KeyF2 => (Event.key Key.F2, w)
  | Input.KeyF3 => (Event.key Key.F3, w)
  | Input.KeyF4 => (Event.key Key.F4, w)
  | Input.KeyF5 => (Event.key Key.F5, w)
  | Input.KeyF6 => (Event.key Key.F6, w)
  | Input.KeyF7 => (Event.key Key.F7, w)
  | Input.KeyF8 => (Event.key Key.F8, w)
  | Input.KeyF9 => (Event.key Key.F9, w)
  | Input.KeyF10 => (Event.key Key.F10, w)
  | Input.KeyF11 => (Event.key Key.F11, w)
  | Input.KeyF12 => (Event.key Key.F12, w)
  | Input.KeyResize => (Event.Resize, w)
  | Input.KeyMouse gm => parse_mouse_event w gm
  | Input.OtherInput => (Event.Refresh, w)

/-- `Window::poll_event` from src/window.rs.  The backend's pending raw
input stream is the list `backend`; `getch` pops its head and returns
`None` exactly when the list is empty (non-blocking read with nothing
available).  The source first pops the internal `event_queue` and
returns its front without touching the backend. -/
def poll_event (w : Window) (backend : List Input) :
    Option Event × Window × List Input :=
  match w.event_queue with
  | ev :: rest => (some ev, { w with event_queue := rest }, backend)
  | [] =>
    match backend with
    | [] => (none, w, backend)
    | input :: backend_rest =>
      match decode_input w input with
      | (ev, w2) => (some ev, w2, backend_rest)

/-- `n` successive calls of `poll_event`, collecting the returned
events in order. -/
def poll_times (w : Window) (backend : List Input) :
    Nat → List (Option Event) × Window × List Input
  | 0 => ([], w, backend)
  | n + 1 =>
    match poll_event w backend with
    | (ev, w2, b2) =>
      match poll_times w2 b2 n with
      | (evs, w3, b3) => (ev :: evs, w3, b3)

/-! ### Keymap construction (`init_keymap` from src/window.rs)

Rust strings are modelled as their lists of unicode characters; the
byte-based slicing of `init_keymap` is made explicit through the UTF-8
byte length of each character, and slicing that would panic in Rust
(index out of range or not on a character boundary) is modelled by
`none`. -/

/-- The UTF-8 byte length of a Rust string (`str::len`). -/
def byteLen : List Char → Nat
  | [] => 0
  | c :: cs => c.utf8Size + byteLen cs

/-- Byte-based `split_at` on a string: `splitAtByte cs n` splits `cs` at
byte index `n`, and is `none` when Rust would panic (the index exceeds
the byte length or falls inside a multi-byte character). -/
def splitAtByte : List Char → Nat → Option (List Char × List Char)
  | cs, 0 => some ([], cs)
  | [], _ + 1 => none
  | c :: cs, n + 1 =>
    if c.utf8Size ≤ n + 1 then
      match splitAtByte cs (n + 1 - c.utf8Size) with
      | some (l, r) => some (c :: l, r)
      | none => none
    else none

/-- The `key_names` table of `init_keymap`: a `HashMap<&str, Key>` with
ten fixed entries, modelled as a decision chain on the key string. -/
def key_names (s : List Char) : Option Key :=
  if s = ['D', 'C'] then some Key.Delete
  else if s = ['D', 'N'] then some Key.Down
  else if s = ['E', 'N', 'D'] then some Key.End
  else if s = ['H', 'O', 'M'] then some Key.Home
  else if s = ['I', 'C'] then some Key.Insert
  else if s = ['L', 'F', 'T'] then some Key.Left
  else if s = ['N', 'X', 'T'] then some Key.PageDown
  else if s = ['P', 'R', 'V'] then some Key.PageUp
  else if s = ['R', 'I', 'T'] then some Key.Right
  else if s = ['U', 'P'] then some Key.Up
  else none

/-- The body of the `for code in 512..1024` loop of `init_keymap` for a
single code: `some none` means the iteration inserts nothing
(`continue`), `some (some ev)` means it inserts `ev` for this code, and
`none` means the iteration panics, namely in
`name[1..].split_at(name.len() - 2)`: when the name is exactly `"k"`
the `usize` subtraction `name.len() - 2` underflows, and when the split
point is not a character boundary the slicing panics. -/
def keymap_entry (keyname : Int → Option (List Char)) (code : Int) :
    Option (Option Event) :=
  match keyname code with
  | none => some none
  | some name =>
    match name with
    | [] => some none
    | c0 :: tail =>
      if c0 = 'k' then
        if byteLen (c0 :: tail) < 2 then none
        else
          match splitAtByte tail (byteLen (c0 :: tail) - 2) with
          | none => none
          | some (key_name, modifier) =>
            match key_names key_name with
            | none => some none
            | some key =>
              if modifier = ['3'] then
                some (some (Event.Key key Modifier.Alt))
              else if modifier = ['4'] then
                some (some (Event.Key key (Modifier.or Modifier.Shift Modifier.Alt)))
              else if modifier = ['5'] then
                some (some (Event.Key key Modifier.Ctrl))
              else if modifier = ['6'] then
                some (some (Event.Key key (Modifier.or Modifier.Ctrl Modifier.Shift)))
              else if modifier = ['7'] then
                some (some (Event.Key key
                  (Modifier.or (Modifier.or Modifier.Ctrl Modifier.Shift) Modifier.Alt)))
              else some none
      else some none

/-- The codes scanned by `init_keymap`: `512..1024` (i32 values). -/
def key_code_range : List Int := (List.range 512).map (fun i => 512 + Int.ofNat i)

/-- One fold step of `init_keymap`: panic (`none`) propagates, otherwise
the iteration's entry (if any) is inserted into the map. -/
def keymap_step (keyname : Int → Option (List Char))
    (acc : Option (List (Int × Event))) (code : Int) :
    Option (List (Int × Event)) :=
  match acc with
  | none => none
  | some m =>
    match keymap_entry keyname code with
    | none => none
    | some none => some m
    | some (some ev) => some ((code, ev) :: m)

/-- `init_keymap` from src/window.rs, parameterized by the backend
`curses::keyname` capability; `none` means some iteration panicked. -/
def init_keymap (keyname : Int → Option (List Char)) :
    Option (List (Int × Event)) :=
  List.foldl (keymap_step keyname) (some []) key_code_range

/-! ### Theorems -/

/-- A character whose code point is below 128 occupies one UTF-8 byte. -/
theorem char_utf8Size_of_lt_128 (c : Char) (h : c.toNat < 128) : c.utf8Size = 1 := by
  unfold Char.utf8Size
  have hv : c.val ≤ 0x7F := by
    simp only [Char.toNat] at h
    show c.val.toNat ≤ (0x7F : UInt32).toNat
    have h127 : (0x7F : UInt32).toNat = 127 := rfl
    omega
  simp [hv]

/-- C7: for every signed 32-bit raw code that fails decoding, the
`Event::Unknown` payload built by `split_i32` is exactly 4 bytes in
little-endian order, and reinterpreting those 4 bytes as a signed 32-bit
little-endian integer reproduces the code exactly. -/
theorem split_i32_roundtrip (code : Int)
    (hlo : -2147483648 ≤ code) (hhi : code < 2147483648) :
    (split_i32 code).length = 4 ∧
    ∀ b0 b1 b2 b3 : Nat, split_i32 code = [b0, b1, b2, b3] →
      b0 < 256 ∧ b1 < 256 ∧ b2 < 256 ∧ b3 < 256 ∧
      (if b0 + 256 * b1 + 65536 * b2 + 16777216 * b3 < 2147483648
       then (b0 + 256 * b1 + 65536 * b2 + 16777216 * b3 : Int)
       else (b0 + 256 * b1 + 65536 * b2 + 16777216 * b3 : Int) - 4294967296) = code := by
  have hrange : split_i32 code =
      [(code % 4294967296).toNat >>> (8 * 0) &&& 255,
       (code % 4294967296).toNat >>> (8 * 1) &&& 255,
       (code % 4294967296).toNat >>> (8 * 2) &&& 255,
       (code % 4294967296).toNat >>> (8 * 3) &&& 255] := rfl
  constructor
  · rw [hrange]; rfl
  · intro b0 b1 b2 b3 hb
    rw [hrange] at hb
    injection hb with e0 hb; injection hb with e1 hb
    injection hb with e2 hb; injection hb with e3 _
    have hmod : ∀ k : Nat, (code % 4294967296).toNat >>> k &&& 255 =
        (code % 4294967296).toNat / 2 ^ k % 256 := by
      intro k
      rw [Nat.shiftRight_eq_div_pow]
      have := Nat.and_pow_two_sub_one_eq_mod ((code % 4294967296).toNat / 2 ^ k) 8
      norm_num at this
      exact this
    rw [hmod] at e0 e1 e2 e3
    norm_num at e0 e1 e2 e3
    have hnn : (0 : Int) ≤ code % 4294967296 :=
      Int.emod_nonneg code (by norm_num)
    have hlt : code % 4294967296 < 4294967296 :=
      Int.emod_lt_of_pos code (by norm_num)
    have hcast : ((code % 4294967296).toNat : Int) = code % 4294967296 :=
      Int.toNat_of_nonneg hnn
    refine ⟨by omega, by omega, by omega, by omega, ?_⟩
    split <;> omega

/-- C7 witness: the round-trip evaluated at code -2, whose little-endian
bytes are [254, 255, 255, 255]. -/
theorem split_i32_roundtrip_witness :
    split_i32 (-2) = [254, 255, 255, 255] ∧
    (254 < 256 ∧ 255 < 256 ∧ 255 < 256 ∧ 255 < 256 ∧
     (if 254 + 256 * 255 + 65536 * 255 + 16777216 * 255 < 2147483648
      then (254 + 256 * 255 + 65536 * 255 + 16777216 * 255 : Int)
      else (254 + 256 * 255 + 65536 * 255 + 16777216 * 255 : Int) - 4294967296) =
       (-2 : Int)) :=
  ⟨by decide,
   (split_i32_roundtrip (-2) (by norm_num) (by norm_num)).2 254 255 255 255
     (by decide)⟩

/-- C8: on an extended/unknown backend code `c`, `poll_event` looks up
`c + 256 + 48` (not `c` itself) in the keymap, so an entry stored for
curses code `k` is returned exactly when the backend reports `k - 304`;
on a miss the `Unknown` payload carries the bytes of the original code
`c`, not of the offset key. -/
theorem unknown_code_offset_lookup (w : Window) (code k : Int) (ev : Event) :
    decode_input w (Input.Unknown code) =
      ((match lookupKV w.key_codes (code + 256 + 48) with
        | some e => e
        | none => Event.Unknown (split_i32 code)), w) ∧
    (lookupKV w.key_codes k = some ev →
      decode_input w (Input.Unknown (k - 304)) = (ev, w)) ∧
    (lookupKV w.key_codes (code + 256 + 48) = none →
      decode_input w (Input.Unknown code) = (Event.Unknown (split_i32 code), w)) := by
  refine ⟨rfl, ?_, ?_⟩
  · intro h
    have hk : k - 304 + 256 + 48 = k := by omega
    simp [decode_input, hk, h]
  · intro h
    simp [decode_input, h]

/-- C8 witness: a keymap entry stored for code 513 is returned when the
backend reports unknown code 209 = 513 - 304. -/
theorem unknown_code_offset_lookup_witness :
    lookupKV [(513, Event.Key Key.Right Modifier.Ctrl)] 513 =
      some (Event.Key Key.Right Modifier.Ctrl) ∧
    decode_input ⟨[], none, [(513, Event.Key Key.Right Modifier.Ctrl)]⟩
        (Input.Unknown (513 - 304)) =
      (Event.Key Key.Right Modifier.Ctrl,
       ⟨[], none, [(513, Event.Key Key.Right Modifier.Ctrl)]⟩) :=
  ⟨by decide,
   (unknown_code_offset_lookup
      ⟨[], none, [(513, Event.Key Key.Right Modifier.Ctrl)]⟩ 0 513
      (Event.Key Key.Right Modifier.Ctrl)).2.1 (by decide)⟩

/-- C4: when the raw mouse state, stripped of the Ctrl/Shift/Alt bits,
equals the bare position-report flag, decoding yields exactly one event
and leaves the window state (queue and remembered button) unchanged: a
`Hold` of the remembered last button at the reported position when one
is remembered, and `Unknown` with empty payload when none is. -/
theorem bare_position_report (w : Window) (me : MEvent)
    (h : strip_modifiers me.bstate = REPORT_MOUSE_POSITION) :
    (∀ btn, w.last_mouse_button = some btn →
       parse_mouse_event w (Except.ok me) =
         (Event.Mouse (mouse_pos me) (MouseEvent.Hold btn), w)) ∧
    (w.last_mouse_button = none →
       parse_mouse_event w (Except.ok me) = (Event.Unknown [], w)) := by
  constructor
  · intro btn hbtn
    simp [parse_mouse_event, h, hbtn, make_event]
  · intro hnone
    simp [parse_mouse_event, h, hnone]

/-- C4 witness: at `bstate = REPORT_MOUSE_POSITION` a window with no
remembered button yields `Unknown([])`, one remembering `Right` yields
`Hold(Right)` at the reported position. -/
theorem bare_position_report_witness :
    strip_modifiers 268435456 = REPORT_MOUSE_POSITION ∧
    parse_mouse_event ⟨[], none, []⟩ (Except.ok ⟨3, 4, 268435456⟩) =
      (Event.Unknown [], ⟨[], none, []⟩) ∧
    parse_mouse_event ⟨[], some MouseButton.Right, []⟩
        (Except.ok ⟨3, 4, 268435456⟩) =
      (Event.Mouse (3, 4) (MouseEvent.Hold MouseButton.Right),
       ⟨[], some MouseButton.Right, []⟩) :=
  ⟨by decide,
   (bare_position_report ⟨[], none, []⟩ ⟨3, 4, 268435456⟩ (by decide)).2 rfl,
   (bare_position_report ⟨[], some MouseButton.Right, []⟩ ⟨3, 4, 268435456⟩
      (by decide)).1 MouseButton.Right rfl⟩

/-- C1 counterexample: the claim fails on the code in two ways.  Values
8, 9 and 10 lie in [1,26] but are matched by earlier arms and decode to
`Backspace`, `Tab` and `Enter` with no modifier, not to `Ctrl+Char`; and
value 0 is not excluded by the guard `(c as u32) <= 26`: it decodes to
`Char('a' - 1)` (code 96) with `Ctrl`. -/
theorem ctrl_char_range_counterexample :
    poll_event ⟨[], none, []⟩ [Input.Character '\x08'] =
      (some (Event.Key Key.Backspace Modifier.None), ⟨[], none, []⟩, []) ∧
    poll_event ⟨[], none, []⟩ [Input.Character '\x09'] =
      (some (Event.Key Key.Tab Modifier.None), ⟨[], none, []⟩, []) ∧
    poll_event ⟨[], none, []⟩ [Input.Character '\n'] =
      (some (Event.Key Key.Enter Modifier.None), ⟨[], none, []⟩, []) ∧
    poll_event ⟨[], none, []⟩ [Input.Character (Char.ofNat 0)] =
      (some (Event.Key (Key.Char (Char.ofNat 96)) Modifier.Ctrl),
       ⟨[], none, []⟩, []) :=
  ⟨rfl, rfl, rfl, rfl⟩

/-- C1 (amended): for every literal character value `v ≤ 26` except 8,
9 and 10 (which earlier arms map to Backspace, Tab and Enter),
`poll_event` yields `Key::Char(('a' - 1 + v))` with `Modifier::Ctrl`;
in particular `v = 0` is included by the guard and maps to
`Char('a' - 1)`. -/
theorem ctrl_char_range_corrected (w : Window) (v : Nat)
    (hle : v ≤ 26) (h8 : v ≠ 8) (h9 : v ≠ 9) (h10 : v ≠ 10)
    (hq : w.event_queue = []) :
    poll_event w [Input.Character (Char.ofNat v)] =
      (some (Event.Key (Key.Char (Char.ofNat (96 + v))) Modifier.Ctrl), w, []) := by
  obtain ⟨q, lmb, kc⟩ := w
  change q = [] at hq
  subst hq
  interval_cases v <;> first | rfl | omega

/-- C1 witness: `v = 3` decodes to `Ctrl+'c'`. -/
theorem ctrl_char_range_witness :
    ((3 : Nat) ≤ 26 ∧ (3 : Nat) ≠ 8 ∧ (3 : Nat) ≠ 9 ∧ (3 : Nat) ≠ 10) ∧
    poll_event ⟨[], none, []⟩ [Input.Character (Char.ofNat 3)] =
      (some (Event.Key (Key.Char (Char.ofNat 99)) Modifier.Ctrl),
       ⟨[], none, []⟩, []) :=
  ⟨by decide,
   ctrl_char_range_corrected ⟨[], none, []⟩ 3
     (by decide) (by decide) (by decide) (by decide) rfl⟩

/-- C2 counterexample: a raw state with both `BUTTON1_PRESSED` (bit 1)
and `BUTTON2_RELEASED` (bit 5) set decomposes into
`[Press(Left), Release(Middle)]`; the `Release(Middle)` event is
produced (it sits on the queue) but `last_mouse_button` remains `Left`:
only the first event of the decomposition updated it, contradicting the
claim that every produced Press/Release does. -/
theorem last_button_every_event_counterexample :
    parse_mouse_event ⟨[], none, []⟩ (Except.ok ⟨5, 7, 34⟩) =
      (Event.Mouse (5, 7) (MouseEvent.Press MouseButton.Left),
       ⟨[Event.Mouse (5, 7) (MouseEvent.Release MouseButton.Middle)],
        some MouseButton.Left, []⟩) := by
  decide

/-- C2 (amended): in a multi-event decomposition only the first
produced event updates `last_mouse_button` — it is set to that event's
button when the event carries one, and is left unchanged otherwise;
events pushed onto the queue never update it. -/
theorem parse_mouse_last_button_first_only (w : Window) (me : MEvent)
    (hrep : strip_modifiers me.bstate ≠ REPORT_MOUSE_POSITION) :
    (parse_mouse_event w (Except.ok me)).2.last_mouse_button =
      (match collect_bare_events (strip_modifiers me.bstate &&& 33554431) with
       | [] => w.last_mouse_button
       | e :: _ =>
         match e.button with
         | some btn => some btn
         | none => w.last_mouse_button) := by
  cases hc : collect_bare_events (strip_modifiers me.bstate &&& 33554431) with
  | nil => simp [parse_mouse_event, hrep, hc]
  | cons e rest =>
    cases hb : e.button <;> simp [parse_mouse_event, hrep, hc, hb]

/-- C2 witness: the amended rule evaluated on the counterexample state
`bstate = 34`. -/
theorem parse_mouse_last_button_witness :
    strip_modifiers 34 ≠ REPORT_MOUSE_POSITION ∧
    (parse_mouse_event ⟨[], none, []⟩ (Except.ok ⟨5, 7, 34⟩)).2.last_mouse_button =
      (match collect_bare_events (strip_modifiers 34 &&& 33554431) with
       | [] => (none : Option MouseButton)
       | e :: _ =>
         match e.button with
         | some btn => some btn
         | none => (none : Option MouseButton)) :=
  ⟨by decide,
   parse_mouse_last_button_first_only ⟨[], none, []⟩ ⟨5, 7, 34⟩ (by decide)⟩

/-- The multi-event branch of `parse_mouse_event`: when the stripped
state is not a bare position report and the bit decomposition is
non-empty, the first event is returned, the rest are appended to the
queue, and `last_mouse_button` is updated from the first event's
button. -/
theorem parse_mouse_event_events (w : Window) (me : MEvent) (e : MouseEvent)
    (rest : List MouseEvent)
    (hrep : strip_modifiers me.bstate ≠ REPORT_MOUSE_POSITION)
    (hc : collect_bare_events (strip_modifiers me.bstate &&& 33554431) = e :: rest) :
    parse_mouse_event w (Except.ok me) =
      (make_event me e,
       { w with
           event_queue := w.event_queue ++ rest.map (make_event me),
           last_mouse_button :=
             match e.button with
             | some btn => some btn
             | none => w.last_mouse_button }) := by
  simp [parse_mouse_event, hrep, hc]

/-- C3: a raw mouse bitmask whose only set bit is the double-click bit
of button 1 decodes to `[Press(Left), Release(Left), Press(Left),
Release(Left)]`, all four tagged with the reported position; the first
is returned by the current poll and the other three are queued in that
order and returned by the next three polls. -/
theorem double_click_decomposition (w : Window) (x y : Int)
    (hq : w.event_queue = []) :
    poll_times w [Input.KeyMouse (Except.ok ⟨x, y, BUTTON1_DOUBLE_CLICKED⟩)] 4 =
      ([some (Event.Mouse (usize_of x, usize_of y) (MouseEvent.Press MouseButton.Left)),
        some (Event.Mouse (usize_of x, usize_of y) (MouseEvent.Release MouseButton.Left)),
        some (Event.Mouse (usize_of x, usize_of y) (MouseEvent.Press MouseButton.Left)),
        some (Event.Mouse (usize_of x, usize_of y) (MouseEvent.Release MouseButton.Left))],
       { w with event_queue := [], last_mouse_button := some MouseButton.Left },
       []) := by
  obtain ⟨q, lmb, kc⟩ := w
  change q = [] at hq
  subst hq
  have h1 := parse_mouse_event_events ⟨[], lmb, kc⟩ ⟨x, y, BUTTON1_DOUBLE_CLICKED⟩
      (MouseEvent.Press MouseButton.Left)
      [MouseEvent.Release MouseButton.Left, MouseEvent.Press MouseButton.Left,
       MouseEvent.Release MouseButton.Left]
      (by exact (by decide : strip_modifiers 8 ≠ REPORT_MOUSE_POSITION))
      (by exact (by decide : collect_bare_events (strip_modifiers 8 &&& 33554431) =
        [MouseEvent.Press MouseButton.Left, MouseEvent.Release MouseButton.Left,
         MouseEvent.Press MouseButton.Left, MouseEvent.Release MouseButton.Left]))
  simp [poll_times, poll_event, decode_input, h1, make_event, mouse_pos,
    MouseEvent.button]

/-- C3 witness: the double-click decomposition at position (1, 2). -/
theorem double_click_decomposition_witness :
    (⟨[], none, []⟩ : Window).event_queue = [] ∧
    poll_times ⟨[], none, []⟩
        [Input.KeyMouse (Except.ok ⟨1, 2, BUTTON1_DOUBLE_CLICKED⟩)] 4 =
      ([some (Event.Mouse (1, 2) (MouseEvent.Press MouseButton.Left)),
        some (Event.Mouse (1, 2) (MouseEvent.Release MouseButton.Left)),
        some (Event.Mouse (1, 2) (MouseEvent.Press MouseButton.Left)),
        some (Event.Mouse (1, 2) (MouseEvent.Release MouseButton.Left))],
       ⟨[], some MouseButton.Left, []⟩, []) :=
  ⟨rfl, double_click_decomposition ⟨[], none, []⟩ 1 2 rfl⟩

/-- Draining lemma: with a queue of length `n`, `n` polls return exactly
the queued events in order, leave the queue empty, and never touch the
backend or the rest of the state. -/
theorem poll_times_drain (q : List Event) (lmb : Option MouseButton)
    (kc : List (Int × Event)) (backend : List Input) :
    poll_times ⟨q, lmb, kc⟩ backend q.length =
      (q.map some, ⟨[], lmb, kc⟩, backend) := by
  induction q with
  | nil => rfl
  | cons e rest ih => simp [poll_times, poll_event, ih]

/-- C6: every poll drains the pending queue oldest-first — a non-empty
queue is popped and its front returned with the backend untouched;
`none` is returned exactly when both the queue and the backend are
empty; draining a queue of length `n` returns each queued event exactly
once in order, after which the next poll consumes fresh backend
input. -/
theorem poll_event_drains_queue (w : Window) (backend : List Input) :
    (∀ ev rest, w.event_queue = ev :: rest →
       poll_event w backend = (some ev, { w with event_queue := rest }, backend)) ∧
    ((poll_event w backend).1 = none ↔ w.event_queue = [] ∧ backend = []) ∧
    (w.event_queue = [] → ∀ input rest, backend = input :: rest →
       poll_event w backend =
         (some (decode_input w input).1, (decode_input w input).2, rest)) ∧
    poll_times w backend w.event_queue.length =
      (w.event_queue.map some, { w with event_queue := [] }, backend) := by
  refine ⟨?_, ?_, ?_, ?_⟩
  · intro ev rest h
    simp [poll_event, h]
  · cases hq : w.event_queue with
    | cons e rest => simp [poll_event, hq]
    | nil =>
      cases backend with
      | nil => simp [poll_event, hq]
      | cons input rest => simp [poll_event, hq]
  · intro hq input rest hb
    subst hb
    simp [poll_event, hq]
  · obtain ⟨q, lmb, kc⟩ := w
    exact poll_times_drain q lmb kc backend

/-- C6 witness: a window with two queued events returns them in order
over two polls without consuming the pending backend input, and a fresh
window with empty queue and empty backend polls to `none`. -/
theorem poll_event_drains_queue_witness :
    (⟨[Event.Resize, Event.Refresh], none, []⟩ : Window).event_queue =
      Event.Resize :: [Event.Refresh] ∧
    poll_event ⟨[Event.Resize, Event.Refresh], none, []⟩ [Input.KeyEnter] =
      (some Event.Resize, ⟨[Event.Refresh], none, []⟩, [Input.KeyEnter]) ∧
    ((poll_event ⟨[], none, []⟩ ([] : List Input)).1 = none ↔
      (⟨[], none, []⟩ : Window).event_queue = [] ∧ ([] : List Input) = []) :=
  ⟨rfl,
   (poll_event_drains_queue ⟨[Event.Resize, Event.Refresh], none, []⟩
      [Input.KeyEnter]).1 Event.Resize [Event.Refresh] rfl,
   (poll_event_drains_queue ⟨[], none, []⟩ ([] : List Input)).2.1⟩

/-- The decoder state returned by `parse_mouse_event` never clears
`last_mouse_button`: it is either left unchanged or set to `some`
button. -/
theorem parse_mouse_event_last_button (w : Window) (gm : Except Int MEvent) :
    (parse_mouse_event w gm).2.last_mouse_button = w.last_mouse_button ∨
    ∃ btn, (parse_mouse_event w gm).2.last_mouse_button = some btn := by
  rcases gm with code | me
  · left; rfl
  · by_cases hrep : strip_modifiers me.bstate = REPORT_MOUSE_POSITION
    · cases hl : w.last_mouse_button <;> simp [parse_mouse_event, hrep, hl]
    · cases hc : collect_bare_events (strip_modifiers me.bstate &&& 33554431) with
      | nil => simp [parse_mouse_event, hrep, hc]
      | cons e rest =>
        cases hb : e.button with
        | none => left; simp [parse_mouse_event, hrep, hc, hb]
        | some btn => right; exact ⟨btn, by simp [parse_mouse_event, hrep, hc, hb]⟩

/-- `decode_input` never clears `last_mouse_button`. -/
theorem decode_input_last_button (w : Window) (input : Input) :
    (decode_input w input).2.last_mouse_button = w.last_mouse_button ∨
    ∃ btn, (decode_input w input).2.last_mouse_button = some btn := by
  cases input <;> first
    | (left; rfl)
    | exact parse_mouse_event_last_button w _

/-- C9: `last_mouse_button` is never reset to `none` once set — every
poll either leaves it unchanged or overwrites it with `some` button (a
`Release` overwrites it with the released button rather than clearing
it), so once it holds a button every subsequent bare position report
decodes to a `Hold` of it and never to the empty-payload `Unknown`. -/
theorem last_mouse_button_monotone (w : Window) (backend : List Input)
    (b0 : MouseButton) (me : MEvent) :
    ((poll_event w backend).2.1.last_mouse_button = w.last_mouse_button ∨
     ∃ btn, (poll_event w backend).2.1.last_mouse_button = some btn) ∧
    (w.last_mouse_button = some b0 →
      (∃ btn, (poll_event w backend).2.1.last_mouse_button = some btn) ∧
      (strip_modifiers me.bstate = REPORT_MOUSE_POSITION →
        parse_mouse_event w (Except.ok me) =
          (Event.Mouse (mouse_pos me) (MouseEvent.Hold b0), w))) := by
  have hmain : (poll_event w backend).2.1.last_mouse_button = w.last_mouse_button ∨
      ∃ btn, (poll_event w backend).2.1.last_mouse_button = some btn := by
    cases hq : w.event_queue with
    | cons e rest => left; simp [poll_event, hq]
    | nil =>
      cases backend with
      | nil => left; simp [poll_event, hq]
      | cons input rest =>
        have h := decode_input_last_button w input
        rcases h with h | ⟨btn, h⟩
        · left; simpa [poll_event, hq] using h
        · right; exact ⟨btn, by simpa [poll_event, hq] using h⟩
  refine ⟨hmain, fun h0 => ⟨?_, fun hrep => ?_⟩⟩
  · rcases hmain with h | h
    · exact ⟨b0, by rw [h, h0]⟩
    · exact h
  · simp [parse_mouse_event, hrep, h0, make_event]

/-- C9 witness: after a remembered `Right` press, a bare position
report decodes to `Hold(Right)`, and a poll never clears the
remembered button. -/
theorem last_mouse_button_monotone_witness :
    (⟨[], some MouseButton.Right, []⟩ : Window).last_mouse_button =
      some MouseButton.Right ∧
    strip_modifiers 268435456 = REPORT_MOUSE_POSITION ∧
    parse_mouse_event ⟨[], some MouseButton.Right, []⟩
        (Except.ok ⟨10, 20, 268435456⟩) =
      (Event.Mouse (10, 20) (MouseEvent.Hold MouseButton.Right),
       ⟨[], some MouseButton.Right, []⟩) :=
  ⟨rfl, by decide,
   ((last_mouse_button_monotone ⟨[], some MouseButton.Right, []⟩ []
       MouseButton.Right ⟨10, 20, 268435456⟩).2 rfl).2 (by decide)⟩

/-! ### Keymap-construction lemmas -/

/-- A panicked fold stays panicked. -/
theorem keymap_foldl_none (keyname : Int → Option (List Char)) (L : List Int) :
    List.foldl (keymap_step keyname) none L = none := by
  induction L with
  | nil => rfl
  | cons x xs ih =>
    rw [List.foldl_cons]
    exact ih

/-- Codes not in the scanned list leave the lookup of any key
unchanged. -/
theorem keymap_foldl_lookup_of_not_mem (keyname : Int → Option (List Char))
    (L : List Int) (m' : List (Int × Event)) (c : Int) :
    ∀ m, List.foldl (keymap_step keyname) (some m) L = some m' → c ∉ L →
      lookupKV m' c = lookupKV m c := by
  induction L with
  | nil =>
    intro m h _
    injection h with h
    rw [h]
  | cons x xs ih =>
    intro m h hc
    rw [List.foldl_cons] at h
    have hcx : c ≠ x := fun he => hc (he ▸ List.mem_cons_self x xs)
    have hcxs : c ∉ xs := fun he => hc (List.mem_cons_of_mem x he)
    cases he : keymap_entry keyname x with
    | none =>
      rw [show keymap_step keyname (some m) x = none by simp [keymap_step, he]] at h
      rw [keymap_foldl_none] at h
      exact Option.noConfusion h
    | some oe =>
      cases oe with
      | none =>
        rw [show keymap_step keyname (some m) x = some m by
              simp [keymap_step, he]] at h
        exact ih m h hcxs
      | some ev =>
        rw [show keymap_step keyname (some m) x = some ((x, ev) :: m) by
              simp [keymap_step, he]] at h
        rw [ih ((x, ev) :: m) h hcxs]
        simp [lookupKV, hcx]

/-- For a code in the scanned list (scanned once, by nodup), the final
lookup is exactly what that code's own loop iteration produced. -/
theorem keymap_foldl_lookup_mem (keyname : Int → Option (List Char))
    (L : List Int) (m' : List (Int × Event)) (c : Int) :
    ∀ m0, L.Nodup → List.foldl (keymap_step keyname) (some m0) L = some m' →
      c ∈ L →
      ∃ oe, keymap_entry keyname c = some oe ∧
        lookupKV m' c = (match oe with
          | some ev => some ev
          | none => lookupKV m0 c) := by
  induction L with
  | nil =>
    intro m0 _ _ hc
    exact absurd hc (List.not_mem_nil c)
  | cons x xs ih =>
    intro m0 hnd h hc
    rw [List.foldl_cons] at h
    have hx : x ∉ xs := (List.nodup_cons.mp hnd).1
    have hnd' : xs.Nodup := (List.nodup_cons.mp hnd).2
    rcases List.mem_cons.mp hc with hcx | hmem
    · subst hcx
      cases he : keymap_entry keyname c with
      | none =>
        rw [show keymap_step keyname (some m0) c = none by simp [keymap_step, he]] at h
        rw [keymap_foldl_none] at h
        exact Option.noConfusion h
      | some oe =>
        cases oe with
        | none =>
          rw [show keymap_step keyname (some m0) c = some m0 by
                simp [keymap_step, he]] at h
          exact ⟨none, rfl, keymap_foldl_lookup_of_not_mem keyname xs m' c m0 h hx⟩
        | some ev =>
          rw [show keymap_step keyname (some m0) c = some ((c, ev) :: m0) by
                simp [keymap_step, he]] at h
          refine ⟨some ev, rfl, ?_⟩
          rw [keymap_foldl_lookup_of_not_mem keyname xs m' c ((c, ev) :: m0) h hx]
          simp [lookupKV]
    · have hcx : c ≠ x := fun he => hx (he ▸ hmem)
      cases he : keymap_entry keyname x with
      | none =>
        rw [show keymap_step keyname (some m0) x = none by simp [keymap_step, he]] at h
        rw [keymap_foldl_none] at h
        exact Option.noConfusion h
      | some oe =>
        cases oe with
        | none =>
          rw [show keymap_step keyname (some m0) x = some m0 by
                simp [keymap_step, he]] at h
          exact ih m0 hnd' h hmem
        | some ev =>
          rw [show keymap_step keyname (some m0) x = some ((x, ev) :: m0) by
                simp [keymap_step, he]] at h
          obtain ⟨oe, hoe, hlk⟩ := ih ((x, ev) :: m0) hnd' h hmem
          refine ⟨oe, hoe, ?_⟩
          rw [hlk]
          cases oe with
          | some ev2 => rfl
          | none => simp [lookupKV, hcx]

/-- The scanned code range 512..1024 has no duplicates. -/
theorem key_code_range_nodup : key_code_range.Nodup := by
  unfold key_code_range
  refine List.Nodup.map ?_ (List.nodup_range 512)
  intro a b hab
  have hab2 : (512 : Int) + (a : Int) = 512 + (b : Int) := hab
  omega

/-- Every i32 code in [512, 1024) is scanned. -/
theorem mem_key_code_range (c : Int) (h1 : 512 ≤ c) (h2 : c < 1024) :
    c ∈ key_code_range := by
  unfold key_code_range
  refine List.mem_map.mpr ⟨(c - 512).toNat, List.mem_range.mpr (by omega), ?_⟩
  show 512 + (((c - 512).toNat : Nat) : Int) = c
  omega

/-- Characterization of the built keymap at any in-range code: the
lookup result is exactly what that code's loop iteration produced. -/
theorem init_keymap_lookup (keyname : Int → Option (List Char))
    (m : List (Int × Event)) (c : Int)
    (h : init_keymap keyname = some m) (h1 : 512 ≤ c) (h2 : c < 1024) :
    ∃ oe, keymap_entry keyname c = some oe ∧
      lookupKV m c = (match oe with
        | some ev => some ev
        | none => none) := by
  obtain ⟨oe, hoe, hlk⟩ := keymap_foldl_lookup_mem keyname key_code_range m c []
    key_code_range_nodup h (mem_key_code_range c h1 h2)
  refine ⟨oe, hoe, ?_⟩
  rw [hlk]
  cases oe <;> rfl

/-- Byte length distributes over append. -/
theorem byteLen_append (l1 l2 : List Char) :
    byteLen (l1 ++ l2) = byteLen l1 + byteLen l2 := by
  induction l1 with
  | nil => simp [byteLen]
  | cons c cs ih => simp [byteLen, ih, Nat.add_assoc]

/-- For a string of 1-byte characters, byte length is character
count. -/
theorem byteLen_ascii (l : List Char) (h : ∀ ch ∈ l, ch.utf8Size = 1) :
    byteLen l = l.length := by
  induction l with
  | nil => rfl
  | cons c cs ih =>
    have hc := h c (List.mem_cons_self c cs)
    have ihh := ih (fun ch hch => h ch (List.mem_cons_of_mem c hch))
    simp [byteLen, hc, ihh, Nat.add_comm]

/-- Splitting a string of 1-byte characters at any in-range byte index
succeeds and is the character-level take/drop. -/
theorem splitAtByte_ascii_le (l : List Char) :
    ∀ n, (∀ ch ∈ l, ch.utf8Size = 1) → n ≤ l.length →
      splitAtByte l n = some (l.take n, l.drop n) := by
  induction l with
  | nil =>
    intro n _ hn
    have : n = 0 := Nat.le_zero.mp hn
    subst this
    rfl
  | cons c cs ih =>
    intro n h hn
    cases n with
    | zero => rfl
    | succ k =>
      have hc : c.utf8Size = 1 := h c (List.mem_cons_self c cs)
      have hrec := ih k (fun ch hch => h ch (List.mem_cons_of_mem c hch))
        (by simpa using hn)
      simp [splitAtByte, hc, hrec]

/-- Every recognized base mnemonic is an ASCII string. -/
theorem key_names_ascii (s : List Char) (k : Key) (h : key_names s = some k) :
    ∀ ch ∈ s, ch.utf8Size = 1 := by
  by_cases h1 : s = ['D', 'C']
  · subst h1; decide
  by_cases h2 : s = ['D', 'N']
  · subst h2; decide
  by_cases h3 : s = ['E', 'N', 'D']
  · subst h3; decide
  by_cases h4 : s = ['H', 'O', 'M']
  · subst h4; decide
  by_cases h5 : s = ['I', 'C']
  · subst h5; decide
  by_cases h6 : s = ['L', 'F', 'T']
  · subst h6; decide
  by_cases h7 : s = ['N', 'X', 'T']
  · subst h7; decide
  by_cases h8 : s = ['P', 'R', 'V']
  · subst h8; decide
  by_cases h9 : s = ['R', 'I', 'T']
  · subst h9; decide
  by_cases h10 : s = ['U', 'P']
  · subst h10; decide
  have hn : key_names s = none := by
    unfold key_names
    simp [h1, h2, h3, h4, h5, h6, h7, h8, h9, h10]
  rw [hn] at h
  exact Option.noConfusion h

/-- The loop iteration of `init_keymap` on a well-formed name
`'k' ++ base ++ digit` (1-byte characters): the final character is the
modifier digit, the middle is the base mnemonic. -/
theorem keymap_entry_of_name (keyname : Int → Option (List Char)) (code : Int)
    (base : List Char) (d : Char)
    (hname : keyname code = some ('k' :: (base ++ [d])))
    (hbase : ∀ ch ∈ base, ch.utf8Size = 1) (hd : d.utf8Size = 1) :
    keymap_entry keyname code =
      (match key_names base with
       | none => some none
       | some key =>
         if d = '3' then some (some (Event.Key key Modifier.Alt))
         else if d = '4' then
           some (some (Event.Key key (Modifier.or Modifier.Shift Modifier.Alt)))
         else if d = '5' then some (some (Event.Key key Modifier.Ctrl))
         else if d = '6' then
           some (some (Event.Key key (Modifier.or Modifier.Ctrl Modifier.Shift)))
         else if d = '7' then
           some (some (Event.Key key
             (Modifier.or (Modifier.or Modifier.Ctrl Modifier.Shift) Modifier.Alt)))
         else some none) := by
  have hk1 : ('k' : Char).utf8Size = 1 := by decide
  have hbl : byteLen ('k' :: (base ++ [d])) = base.length + 2 := by
    have h1 : byteLen ('k' :: (base ++ [d])) =
        ('k' : Char).utf8Size + byteLen (base ++ [d]) := rfl
    rw [h1, byteLen_append, byteLen_ascii base hbase, hk1]
    simp [byteLen, hd]
    omega
  have hsplit : splitAtByte (base ++ [d]) (byteLen ('k' :: (base ++ [d])) - 2) =
      some (base, [d]) := by
    rw [hbl]
    have he : base.length + 2 - 2 = base.length := by omega
    rw [he]
    have hall : ∀ ch ∈ base ++ [d], ch.utf8Size = 1 := by
      intro ch hch
      rcases List.mem_append.mp hch with hl | hr
      · exact hbase ch hl
      · rw [List.mem_singleton.mp hr]; exact hd
    rw [splitAtByte_ascii_le (base ++ [d]) base.length hall (by simp)]
    rw [List.take_left, List.drop_left]
  have hlt : ¬ (byteLen ('k' :: (base ++ [d])) < 2) := by rw [hbl]; omega
  unfold keymap_entry
  rw [hname]
  split
  next heq => exact Option.noConfusion heq
  next name heq =>
    injection heq with heq
    subst heq
    split
    next heq2 => exact absurd heq2 (by simp)
    next c0 tail heq2 =>
      injection heq2 with h1 h2
      subst h1
      subst h2
      rw [if_pos rfl, if_neg hlt, hsplit]
      split
      next heq3 => exact Option.noConfusion heq3
      next key_name modifier heq3 =>
        injection heq3 with h3
        injection h3 with h4 h5
        subst h4
        subst h5
        cases key_names base with
        | none => rfl
        | some key => simp only [List.cons.injEq, and_true, eq_self_iff_true]

/-! ### C5 and C10 -/

/-- C5: keymap construction maps each in-range code whose backend name
is `'k'` ++ recognized base mnemonic ++ modifier digit 3/4/5/6/7 to the
corresponding key with modifier Alt, Shift+Alt, Ctrl, Ctrl+Shift,
Ctrl+Shift+Alt respectively; an unrecognized base mnemonic or any other
digit produces no entry for that code. -/
theorem init_keymap_modifier_suffix (keyname : Int → Option (List Char))
    (m : List (Int × Event)) (code : Int) (base : List Char) (d : Char)
    (key : Key)
    (hinit : init_keymap keyname = some m)
    (h1 : 512 ≤ code) (h2 : code < 1024)
    (hname : keyname code = some ('k' :: (base ++ [d]))) :
    (key_names base = some key →
      (d = '3' → lookupKV m code = some (Event.Key key Modifier.Alt)) ∧
      (d = '4' → lookupKV m code =
        some (Event.Key key (Modifier.or Modifier.Shift Modifier.Alt))) ∧
      (d = '5' → lookupKV m code = some (Event.Key key Modifier.Ctrl)) ∧
      (d = '6' → lookupKV m code =
        some (Event.Key key (Modifier.or Modifier.Ctrl Modifier.Shift))) ∧
      (d = '7' → lookupKV m code =
        some (Event.Key key
          (Modifier.or (Modifier.or Modifier.Ctrl Modifier.Shift) Modifier.Alt))) ∧
      (d.utf8Size = 1 → d ≠ '3' → d ≠ '4' → d ≠ '5' → d ≠ '6' → d ≠ '7' →
        lookupKV m code = none)) ∧
    ((∀ ch ∈ base, ch.utf8Size = 1) → d.utf8Size = 1 → key_names base = none →
      lookupKV m code = none) := by
  obtain ⟨oe, hoe, hlk⟩ := init_keymap_lookup keyname m code hinit h1 h2
  constructor
  · intro hkn
    have hbase := key_names_ascii base key hkn
    have step : ∀ ev : Event, keymap_entry keyname code = some (some ev) →
        lookupKV m code = some ev := by
      intro ev hce
      rw [hoe] at hce
      injection hce with hce
      subst hce
      simpa using hlk
    refine ⟨?_, ?_, ?_, ?_, ?_, ?_⟩
    · intro hd3; subst hd3
      refine step _ ?_
      rw [keymap_entry_of_name keyname code base '3' hname hbase (by decide), hkn]
      simp
    · intro hd4; subst hd4
      refine step _ ?_
      rw [keymap_entry_of_name keyname code base '4' hname hbase (by decide), hkn]
      simp
    · intro hd5; subst hd5
      refine step _ ?_
      rw [keymap_entry_of_name keyname code base '5' hname hbase (by decide), hkn]
      simp
    · intro hd6; subst hd6
      refine step _ ?_
      rw [keymap_entry_of_name keyname code base '6' hname hbase (by decide), hkn]
      simp
    · intro hd7; subst hd7
      refine step _ ?_
      rw [keymap_entry_of_name keyname code base '7' hname hbase (by decide), hkn]
      simp
    · intro hd h3 h4 h5 h6 h7
      have hce := keymap_entry_of_name keyname code base d hname hbase hd
      rw [hkn] at hce
      simp only [h3, h4, h5, h6, h7, if_false] at hce
      rw [hoe] at hce
      injection hce with hce
      subst hce
      simpa using hlk
  · intro hbase hd hknone
    have hce := keymap_entry_of_name keyname code base d hname hbase hd
    rw [hknone] at hce
    rw [hoe] at hce
    injection hce with hce
    subst hce
    simpa using hlk

set_option maxRecDepth 8192 in
/-- C5 witness: a synthetic backend reporting "kRIT5" for code 513
builds the entry 513 → Key Right with Ctrl; one reporting "kXYZ3" for
code 514 builds no entry for 514. -/
theorem init_keymap_modifier_suffix_witness :
    lookupKV [(513, Event.Key Key.Right Modifier.Ctrl)] 513 =
      some (Event.Key Key.Right Modifier.Ctrl) ∧
    lookupKV [] 514 = none :=
  ⟨(((init_keymap_modifier_suffix
        (fun c => if c = 513 then some ['k', 'R', 'I', 'T', '5'] else none)
        [(513, Event.Key Key.Right Modifier.Ctrl)] 513 ['R', 'I', 'T'] '5'
        Key.Right (by decide) (by decide) (by decide) (by decide)).1
      (by decide)).2.2.1 rfl),
   ((init_keymap_modifier_suffix
        (fun c => if c = 514 then some ['k', 'X', 'Y', 'Z', '3'] else none)
        [] 514 ['X', 'Y', 'Z'] '3' Key.Right (by decide) (by decide)
        (by decide) (by decide)).2 (by decide) (by decide) (by decide))⟩

/-- Under the universal precondition, no loop iteration panics. -/
theorem keymap_entry_ne_none (keyname : Int → Option (List Char))
    (hpre : ∀ c name, keyname c = some name → name.head? = some 'k' →
      (∀ ch ∈ name, ch.toNat < 128) ∧ 2 ≤ name.length)
    (c : Int) : keymap_entry keyname c ≠ none := by
  cases hk : keyname c with
  | none => simp [keymap_entry, hk]
  | some name =>
    cases name with
    | nil => simp [keymap_entry, hk]
    | cons c0 tail =>
      by_cases hc0 : c0 = 'k'
      · subst hc0
        obtain ⟨hascii, hlen⟩ := hpre c ('k' :: tail) hk rfl
        have htne : tail ≠ [] := by
          intro he
          subst he
          simp at hlen
        have hdecomp : tail.dropLast ++ [tail.getLast htne] = tail :=
          List.dropLast_append_getLast htne
        have hname2 : keyname c = some ('k' :: (tail.dropLast ++ [tail.getLast htne])) := by
          rw [hdecomp]
          exact hk
        have hbase : ∀ ch ∈ tail.dropLast, ch.utf8Size = 1 := by
          intro ch hch
          exact char_utf8Size_of_lt_128 ch
            (hascii ch (List.mem_cons_of_mem _ (List.dropLast_subset tail hch)))
        have hd : (tail.getLast htne).utf8Size = 1 :=
          char_utf8Size_of_lt_128 _
            (hascii _ (List.mem_cons_of_mem _ (List.getLast_mem htne)))
        rw [keymap_entry_of_name keyname c tail.dropLast (tail.getLast htne)
          hname2 hbase hd]
        cases key_names tail.dropLast with
        | none => simp
        | some key => split_ifs <;> simp
      · simp [keymap_entry, hk, hc0]

/-- Under the universal precondition, the whole fold succeeds. -/
theorem keymap_foldl_total (keyname : Int → Option (List Char)) (L : List Int) :
    (∀ c ∈ L, keymap_entry keyname c ≠ none) →
    ∀ m0, ∃ m', List.foldl (keymap_step keyname) (some m0) L = some m' := by
  induction L with
  | nil => intro _ m0; exact ⟨m0, rfl⟩
  | cons x xs ih =>
    intro h m0
    have hxs : ∀ c ∈ xs, keymap_entry keyname c ≠ none :=
      fun c hc => h c (List.mem_cons_of_mem x hc)
    cases he : keymap_entry keyname x with
    | none => exact absurd he (h x (List.mem_cons_self x xs))
    | some oe =>
      cases oe with
      | none =>
        obtain ⟨m', hm'⟩ := ih hxs m0
        refine ⟨m', ?_⟩
        rw [List.foldl_cons,
          show keymap_step keyname (some m0) x = some m0 by simp [keymap_step, he]]
        exact hm'
      | some ev =>
        obtain ⟨m', hm'⟩ := ih hxs ((x, ev) :: m0)
        refine ⟨m', ?_⟩
        rw [List.foldl_cons,
          show keymap_step keyname (some m0) x = some ((x, ev) :: m0) by
            simp [keymap_step, he]]
        exact hm'

set_option maxRecDepth 8192 in
/-- C10: keymap construction cannot panic when every backend name that
starts with `'k'` is an ASCII string of length at least 2; outside that
precondition it does panic: for the name exactly `"k"` the `usize`
subtraction `name.len() - 2` underflows, and for a multi-byte character
at the split point (here "ké") the byte slicing is not on a character
boundary. -/
theorem init_keymap_totality (keyname : Int → Option (List Char))
    (hpre : ∀ c name, keyname c = some name → name.head? = some 'k' →
      (∀ ch ∈ name, ch.toNat < 128) ∧ 2 ≤ name.length) :
    init_keymap keyname ≠ none ∧
    init_keymap (fun c => if c = 600 then some ['k'] else none) = none ∧
    init_keymap (fun c => if c = 600 then some ['k', 'é'] else none) = none := by
  refine ⟨?_, by decide, by decide⟩
  obtain ⟨m', hm'⟩ := keymap_foldl_total keyname key_code_range
    (fun c _ => keymap_entry_ne_none keyname hpre c) []
  unfold init_keymap
  rw [hm']
  simp

set_option maxRecDepth 8192 in
/-- C10 witness: the precondition discharged for a concrete backend
with one well-formed name. -/
theorem init_keymap_totality_witness :
    init_keymap (fun c => if c = 513 then some ['k', 'R', 'I', 'T', '5'] else none) ≠
      none :=
  (init_keymap_totality
    (fun c => if c = 513 then some ['k', 'R', 'I', 'T', '5'] else none)
    (by
      intro c name hc _
      by_cases h513 : c = 513
      · subst h513
        have hc2 : some (['k', 'R', 'I', 'T', '5'] : List Char) = some name := hc
        injection hc2 with hc2
        subst hc2
        exact ⟨by decide, by decide⟩
      · simp [h513] at hc)).1

end termui
